import Mathlib

/-!
Verification of the incremental git-blame cache of the
`vscode-better-git-line-blame` extension (`src/extension.ts`, newest variant).

The TypeScript source is shallowly embedded:

* a JS array of `Ref`s that may contain holes (`undefined` slots) is a
  `List (Option Ref)`; reading out of bounds yields `none` like reading
  `undefined` in JS;
* JS string helpers used by the source (`split`, `parseInt`, `trim`,
  `indexOf`/`substring` pairs, `replace(/[<>]/g, "")`) are re-implemented as
  structural functions over `List Char` so that concrete runs reduce in the
  kernel;
* `Map` objects are association lists whose `set` conses a binding; lookups
  observe the same values as the JS maps;
* the streaming parser of `loadBlameForFile` is a step function over a state
  record, folded over the list of stdout lines.
-/

namespace GitLineBlame

/-- A revision reference: a commit SHA or the `uncommitted` sentinel
(`extension.ts`: `type Ref = Sha | typeof uncommitted`). -/
inductive Ref where
  | sha (s : String)
  | uncommitted
  deriving DecidableEq, Repr

/-- Read `a[i]` from a JS array with holes: out-of-bounds or a hole slot is
`undefined` (`none`). -/
def jsGet (a : List (Option Ref)) (i : Nat) : Option Ref :=
  a.getD i none

/-- Write `a[i] = v` on a JS array: an in-bounds write updates the slot, a
write past the end pads the array with holes up to index `i` and sets
`length` to `i + 1`. -/
def jsWrite (a : List (Option Ref)) (i : Nat) (v : Ref) : List (Option Ref) :=
  if i < a.length then a.set i (some v)
  else a ++ List.replicate (i - a.length) none ++ [some v]

/-- The JS loop `for (let k = i; k < i + n; k++) a[k] = v`, with an `Int`
start index: negative indices write inert string-keyed properties in JS, so
only the non-negative ones touch the array. -/
def fillFrom (a : List (Option Ref)) (i : Int) (n : Nat) (v : Ref) :
    List (Option Ref) :=
  match n with
  | 0 => a
  | n + 1 => fillFrom (if 0 ≤ i then jsWrite a i.toNat v else a) (i + 1) n v

/-- `String.prototype.split` on a one-character separator, over `List Char`:
always returns at least one (possibly empty) chunk. -/
def splitChars (sep : Char) : List Char → List (List Char)
  | [] => [[]]
  | c :: cs =>
    let r := splitChars sep cs
    if c = sep then [] :: r
    else
      match r with
      | [] => [[c]]
      | h :: t => (c :: h) :: t

/-- JS `s.split(sep)` for a one-character separator. -/
def jsSplit (sep : Char) (s : String) : List String :=
  (splitChars sep s.toList).map (fun l => String.mk l)

/-- `change.text.split("\n")` — the lines of a replacement text. -/
def jsLines (s : String) : List String := jsSplit '\n' s

/-- JS `parseInt` restricted to the plain decimal numerals git emits: the
leading run of decimal digits, `none` standing for `NaN` when there is no
digit. -/
def jsParseInt (s : String) : Option Nat :=
  let ds := s.toList.takeWhile Char.isDigit
  if ds.isEmpty then none
  else some (ds.foldl (fun n c => 10 * n + (c.toNat - 48)) 0)

/-- A `TextDocumentContentChangeEvent` restricted to what `processChange`
reads: the 0-based line bounds of `change.range` (VS Code guarantees
`start ≤ end`) and the replacement `change.text`. -/
structure ContentChange where
  startLine : Nat
  endLine : Nat
  text : String
  deriving DecidableEq, Repr

/-- `processChange` (`extension.ts` newest variant, lines 752–760): mark every
replaced surviving line as uncommitted, then `splice` out surplus lines or
`splice` in fresh uncommitted lines. -/
def processChange (b : List (Option Ref)) (c : ContentChange) :
    List (Option Ref) :=
  let s := c.startLine
  let e := c.endLine
  let lines := jsLines c.text
  let newEnd := s + lines.length - 1
  let b1 := fillFrom b (s : Int) (min e newEnd + 1 - s) Ref.uncommitted
  if newEnd < e then b1.take (newEnd + 1) ++ b1.drop (e + 1)
  else if e < newEnd then
    b1.take (e + 1) ++ List.replicate (newEnd - e) (some Ref.uncommitted) ++
      b1.drop (e + 1)
  else b1

/-! ## Data model -/

/-- `File.state` (`"loading" | "done" | "dirty"`). -/
inductive FState where
  | loading | done | dirty
  deriving DecidableEq, Repr

/-- `File.tracked` (`"yes" | "no" | "unknown"`). -/
inductive Tracked where
  | yes | no | unknown
  deriving DecidableEq, Repr

/-- A commit-metadata record under construction or stored in `repo.commits`.
The TypeScript record starts as `{} as Commit` with every field `undefined`,
so each field is an `Option`; `timestamp` is `none` both when unset and when
`parseInt` returned `NaN`. `message` holds the lazily fetched raw commit
message. -/
structure Commit where
  author : Option String
  email : Option String
  timestamp : Option Nat
  summary : Option String
  message : Option String
  deriving DecidableEq, Repr

/-- Lookup in a JS `Map` modelled as an association list. -/
def mlookup {α : Type} : List (String × α) → String → Option α
  | [], _ => none
  | (k, v) :: t, q => if k = q then some v else mlookup t q

/-- `Map.set`: cons a binding; later lookups observe the new value, so the
observable map coincides with the JS one. -/
def mset {α : Type} (m : List (String × α)) (k : String) (v : α) :
    List (String × α) :=
  (k, v) :: m

/-- The per-SHA rename record kept in `file.filenames`. -/
structure Filenames where
  previous : String
  filename : String
  deriving DecidableEq, Repr

/-- The per-file blame state (`interface File`). `pendingEditors` is the
`Set<TextEditor>` in insertion order, editors named by numeric ids. -/
structure File where
  state : FState
  tracked : Tracked
  blame : List (Option Ref)
  filenames : List (String × Filenames)
  pendingChanges : List ContentChange
  pendingEditors : List Nat
  deriving DecidableEq, Repr

/-- `file.pendingEditors.add(e)` — a `Set` add. -/
def addEditor (f : File) (e : Nat) : File :=
  if e ∈ f.pendingEditors then f
  else { f with pendingEditors := f.pendingEditors ++ [e] }

/-! ## JS string helpers used by the parser -/

/-- The `idx = line.indexOf(" "); tag = line.substring(0, idx);
content = line.substring(idx + 1)` idiom: with no space, `idx = -1` gives
`tag = ""` and `content = line`. -/
def splitTag (line : String) : String × String :=
  let l := line.toList
  if l.contains ' ' then
    (String.mk (l.takeWhile (fun c => c ≠ ' ')),
     String.mk ((l.dropWhile (fun c => c ≠ ' ')).drop 1))
  else ("", line)

/-- `content.substring(content.indexOf(" ") + 1)`: everything after the first
space, or the whole string when there is none. -/
def afterFirstSpace (s : String) : String :=
  let l := s.toList
  if l.contains ' ' then String.mk ((l.dropWhile (fun c => c ≠ ' ')).drop 1)
  else s

/-- `content.replace(/[<>]/g, "")`. -/
def stripAngles (s : String) : String :=
  String.mk (s.toList.filter (fun c => !(c == '<' || c == '>')))

/-- JS `content.trim()` on the ASCII whitespace git can emit. -/
def jsTrim (s : String) : String :=
  let ws := fun c : Char => c == ' ' || c == '\t' || c == '\n' || c == '\r'
  String.mk (((s.toList.dropWhile ws).reverse.dropWhile ws).reverse)

/-- The all-zero revision id denoting uncommitted lines. -/
def zeroSha : String := "0000000000000000000000000000000000000000"

/-! ## The attribution stream parser (`loadBlameForFile`, lines 1128–1183) -/

/-- The parser's loop state: the local variables `expectSha`, `sha`, `commit`
of `loadBlameForFile` plus the file being filled and the repository's commit
store. `aborted` models the early `return` on the unreachable
"sha not set" branch. -/
structure PState where
  expectSha : Bool
  sha : Option String
  cur : Option Commit
  aborted : Bool
  file : File
  commits : List (String × Commit)
  deriving DecidableEq, Repr

/-- `if (file.tracked !== "yes") { file.tracked = "yes"; ... }` (the editor
refreshes triggered there are presentational). -/
def setTrackedYes (f : File) : File :=
  if f.tracked = Tracked.yes then f else { f with tracked := Tracked.yes }

/-- A header line `<sha> <origLine> <finalLine> <lineCount>`: fill
`blame[finalLine-1 .. finalLine-1+lineCount)` with the ref and start a fresh
commit record exactly when the sha is not the zero sha and not already in the
store. A `NaN` from `parseInt` (missing or non-numeric field) makes the fill
loop run zero times. -/
def stepHeader (st : PState) (line : String) : PState :=
  let words := jsSplit ' ' line
  let sha := words.getD 0 ""
  let ref := if sha = zeroSha then Ref.uncommitted else Ref.sha sha
  let blame' :=
    match jsParseInt (words.getD 2 ""), jsParseInt (words.getD 3 "") with
    | some s2, some n => fillFrom st.file.blame ((s2 : Int) - 1) n ref
    | _, _ => st.file.blame
  let cur : Option Commit :=
    if ref ≠ Ref.uncommitted ∧ mlookup st.commits sha = none then
      some ⟨none, none, none, none, none⟩
    else none
  { st with
    expectSha := false
    sha := some sha
    cur := cur
    file := setTrackedYes { st.file with blame := blame' } }

/-- The `if (tag === "filename") { ... }` block of the tag-line handler:
`filename` inserts the in-progress record (if any) into the commit store and
terminates the entry. -/
def stepTagInsert (st : PState) (tag : String) : PState :=
  if tag = "filename" then
    { st with
      commits :=
        match st.sha, st.cur with
        | some s, some c => mset st.commits s c
        | _, _ => st.commits
      expectSha := true }
  else st

/-- The `if (!commit) continue; switch (tag) { ... }` part of the tag-line
handler: when a record is in progress, the recognized tags update it or the
per-file rename map (`pathlib.normalize` modelled as the identity on the
already-normal relative paths git emits); `aborted` models the early
`return` of the "sha not set" branch. -/
def stepTagSwitch (relPath : String) (st : PState) (tag content : String) :
    PState :=
  match st.cur with
  | none => st
  | some c =>
    if tag = "author" then
      { st with
        cur := some (if c.author = none ∨ c.author = some "" then
          { c with author := some content } else c) }
    else if tag = "author-mail" then
      { st with cur := some { c with email := some (stripAngles content) } }
    else if tag = "author-time" then
      { st with cur := some { c with timestamp := jsParseInt content } }
    else if tag = "summary" then
      { st with cur := some { c with summary := some (jsTrim content) } }
    else if tag = "previous" ∨ tag = "filename" then
      let value := afterFirstSpace content
      if value = relPath then st
      else
        match st.sha with
        | none => { st with aborted := true }
        | some s =>
          match mlookup st.file.filenames s with
          | none =>
            { st with file :=
                { st.file with filenames := mset st.file.filenames s ⟨value, value⟩ } }
          | some names =>
            let names' :=
              if tag = "previous" then { names with previous := value }
              else { names with filename := value }
            { st with file :=
                { st.file with filenames := mset st.file.filenames s names' } }
    else st

/-- A tag line: the terminator block followed by the switch, as in the
source. -/
def stepTag (relPath : String) (st : PState) (line : String) : PState :=
  let tc := splitTag line
  stepTagSwitch relPath (stepTagInsert st tc.1) tc.1 tc.2

/-- One iteration of the `for await` loop over stdout lines. -/
def stepLine (relPath : String) (st : PState) (line : String) : PState :=
  if st.aborted then st
  else if st.expectSha then stepHeader st line
  else stepTag relPath st line

/-- The whole streaming parse. -/
def runLines (relPath : String) (st : PState) (lines : List String) : PState :=
  lines.foldl (stepLine relPath) st

/-- The parser's initial state: `expectSha = true`, no sha, no in-progress
record, over the given file and pre-existing commit store. -/
def initPState (f : File) (commits : List (String × Commit)) : PState :=
  { expectSha := true, sha := none, cur := none, aborted := false
    file := f, commits := commits }

/-! ## Load completion (lines 1184–1193) -/

/-- The state updates after `await exitCode`: set `tracked` from the exit
code, mark the state `done`, replay the queued changes in arrival order when
the blame succeeded, then clear both queues. -/
def finishFile (f : File) (code : Int) : File :=
  let tracked :=
    if code = 0 then Tracked.yes
    else if code = 128 then Tracked.no
    else f.tracked
  let f1 : File := { f with tracked := tracked, state := FState.done }
  let f2 :=
    if code = 0 then
      { f1 with blame := f1.pendingChanges.foldl processChange f1.blame }
    else f1
  { f2 with pendingChanges := [], pendingEditors := [] }

/-- Observable events of one blame load, in program order. -/
inductive Event where
  | parseLine (n : Nat)
  | setStateDone
  | applyChange (c : ContentChange)
  | notifyEditor (e : Nat)
  deriving DecidableEq, Repr

/-- The events of the completion epilogue, in the statement order of lines
1188–1193: `file.state = "done"` first, then the replay of queued changes
(on success), then the notification of every queued editor. -/
def finishTrace (f : File) (code : Int) : List Event :=
  [Event.setStateDone] ++
    (if code = 0 then f.pendingChanges.map Event.applyChange else []) ++
    f.pendingEditors.map Event.notifyEditor

/-- The events of a whole load: every parsed stdout line, then the epilogue.
`f` is the file state at completion (its queues hold what accrued during the
load). -/
def loadTrace (lines : List String) (f : File) (code : Int) : List Event :=
  (List.range lines.length).map Event.parseLine ++ finishTrace f code

/-! ## Edit routing (`onDidChangeTextDocument`, lines 732–750) -/

/-- Route a document-change event: untracked files are ignored; a loading
file queues the deltas in arrival order; a done file applies them one by one
in arrival order; a dirty file ignores them. -/
def onDidChangeTextDocument (f : File) (changes : List ContentChange) : File :=
  if f.tracked = Tracked.no then f
  else
    match f.state with
    | FState.loading => { f with pendingChanges := f.pendingChanges ++ changes }
    | FState.done => { f with blame := changes.foldl processChange f.blame }
    | FState.dirty => f

/-- Lines 794–795 of the selection handler: a requester observing a loading
file is queued as a pending editor. -/
def queuePendingEditor (f : File) (e : Nat) : File :=
  if f.state = FState.loading then addEditor f e else f

/-! ## Reads (`getCommitTemp`, lines 981–990) -/

/-- The observable attribution state of one line. -/
inductive CommitTemp where
  | untracked | dirty | loading | uncommitted | failed
  | commit (sha : String) (c : Commit)
  deriving DecidableEq, Repr

/-- `getCommitTemp`: the attribution of `line`, given the document's
`lineCount`. -/
def getCommitTemp (docLineCount : Nat) (commits : List (String × Commit))
    (f : File) (line : Nat) : CommitTemp :=
  if f.tracked ≠ Tracked.yes then CommitTemp.untracked
  else if f.state = FState.dirty then CommitTemp.dirty
  else
    match jsGet f.blame line with
    | none =>
      if line = docLineCount - 1 then CommitTemp.uncommitted
      else CommitTemp.loading
    | some Ref.uncommitted => CommitTemp.uncommitted
    | some (Ref.sha s) =>
      match mlookup commits s with
      | none => CommitTemp.failed
      | some c => CommitTemp.commit s c

/-! ## Repository session, `loadFile` (lines 690–710) and the head check
(lines 796–804) -/

/-- A repository session (`interface Repository`, presentational fields
omitted). -/
structure Repo where
  head : Ref
  files : List (String × File)
  commits : List (String × Commit)
  deriving DecidableEq, Repr

/-- What a `loadFile` call produces: the updated session, the file record the
call returns, and whether a blame subprocess was spawned. -/
structure LoadResult where
  repo : Repo
  file : File
  blameSpawned : Bool
  deriving DecidableEq, Repr

/-- The reinitialized file record of `loadFile`'s spawn path. -/
def initFile (tracked : Tracked) (ed : Option Nat) : File :=
  { state := FState.loading
    tracked := tracked
    blame := []
    filenames := []
    pendingChanges := []
    pendingEditors := match ed with | some e => [e] | none => [] }

/-- The spawn path of `loadFile` followed by `loadBlameForDocument`: a clean
document keeps `state = loading` and spawns `git blame`; a dirty document is
marked dirty and spawns no blame subprocess (the `ls-files` tracked-state
probe is a different subprocess and is not modelled). -/
def loadFileFresh (repo : Repo) (path : String) (ed : Option Nat)
    (tracked : Tracked) (isDirty : Bool) : LoadResult :=
  let f := initFile tracked ed
  let f := if isDirty then { f with state := FState.dirty } else f
  ⟨{ repo with files := mset repo.files path f }, f, !isDirty⟩

/-- `loadFile`: an existing record is returned as-is unless this is a forced
reload of a non-loading file; a loading file always wins the guard, so a
second request during loading spawns nothing and changes nothing. -/
def loadFile (repo : Repo) (path : String) (ed : Option Nat) (force : Bool)
    (isDirty : Bool) : LoadResult :=
  match mlookup repo.files path with
  | some file =>
    if force = false ∨ file.state = FState.loading then ⟨repo, file, false⟩
    else loadFileFresh repo path ed file.tracked isDirty
  | none => loadFileFresh repo path ed Tracked.unknown isDirty

/-- The head check of the selection handler: when the observed head differs
from the cached one, record the new head, clear the file map (commits are
untouched) and reload the focused file through `loadFile` (its `reuse` option
is never read; `force` is absent, but the cleared map makes the fresh path
run). -/
def checkHead (repo : Repo) (actualHead : Ref) (path : String)
    (ed : Option Nat) (isDirty : Bool) : Repo × Bool :=
  if repo.head = actualHead then (repo, false)
  else
    let repo' : Repo := { repo with head := actualHead, files := [] }
    let r := loadFile repo' path ed false isDirty
    (r.repo, r.blameSpawned)

/-! ## Lazy commit-message fetching (`getCommitInfo`, lines 1014–1019) -/

/-- Interleaving events at one commit record: a display request reaching
`getCommitInfo`, or the resolution of an in-flight `git show` fetch. -/
inductive MsgEvent where
  | request
  | resolve (raw : String)
  deriving DecidableEq, Repr

/-- One event at a commit record, counting spawned fetch subprocesses: a
request spawns a fetch exactly when `commit.message` is still `undefined`
(the pending promise lives on the per-call `info` object, not on the
commit); `commit.message` is assigned only when a fetch resolves. -/
def msgStep : Commit × Nat → MsgEvent → Commit × Nat
  | (c, n), MsgEvent.request => if c.message = none then (c, n + 1) else (c, n)
  | (c, n), MsgEvent.resolve raw => ({ c with message := some raw }, n)

/-- Run a script of message events, starting with zero spawns. -/
def runMsg (c : Commit) (evs : List MsgEvent) : Commit × Nat :=
  evs.foldl msgStep (c, 0)

/-! ## Documents (external collaborator semantics) -/

/-- VS Code's `TextDocument.lineCount` for a document given as its list of
lines: a file whose content ends in a newline shows a final empty line. -/
def vsDocLineCount (doc : List String) : Nat := doc.length

/-- The number of lines `git blame` attributes for that document: the final
empty line of a newline-terminated file is content-free and receives no
blame entry. -/
def gitAttributedLines (doc : List String) : Nat :=
  if doc.getLast? = some "" then doc.length - 1 else doc.length

/-! ## Invariants and concrete scenario inputs -/

/-- Parser-state invariant: mid-entry (a header line has been read, a tag
line is expected) with an in-progress record, the current sha is set and is
not yet in the commit store — the record is inserted only at the entry's
`filename` terminator, and only fresh shas start a record. -/
def PInv (st : PState) : Prop :=
  st.expectSha = false → ∀ c, st.cur = some c →
    ∃ s, st.sha = some s ∧ mlookup st.commits s = none

/-- The delta of the claimed counterexample: delete line 1 of an empty blame
array (a delta whose replaced range extends past the array, as happens for the
trailing line of a newline-terminated document, whose blame array is one
shorter than the document). -/
def cxChange : ContentChange := ⟨0, 1, ""⟩

/-- The spec's end-to-end example stream (§8, scenario 6). -/
def exampleStream : List String :=
  [ "aaa1111 1 1 2",
    "author Alice",
    "author-mail <alice@example.com>",
    "author-time 1000000000",
    "summary Initial commit",
    "filename foo.txt",
    "0000000000000000000000000000000000000000 3 3 1",
    "filename foo.txt" ]

/-- The parse of the example stream over a fresh file and an empty commit
store. -/
def exampleParse : PState :=
  runLines "foo.txt" (initPState (initFile Tracked.unknown none) [])
    exampleStream

/-- The commit record the example stream produces for `aaa1111`. -/
def aliceCommit : Commit :=
  { author := some "Alice", email := some "alice@example.com"
    timestamp := some 1000000000, summary := some "Initial commit"
    message := none }

/-- A commit store that already knows `aaa1111` (as after an earlier file's
parse in the same repository). -/
def seededStore : List (String × Commit) := [("aaa1111", aliceCommit)]

/-- A later stream whose single entry reuses `aaa1111` with different tag
values. -/
def cxStreamC4 : List String :=
  [ "aaa1111 1 1 1",
    "author Bob",
    "author-mail <bob@example.com>",
    "author-time 2000000000",
    "summary Second entry",
    "filename foo.txt" ]

/-- A loading file with one queued delta and one queued observer, as at the
completion of a load during which one edit and one display request arrived. -/
def cxLoadingFile : File :=
  { state := FState.loading, tracked := Tracked.yes, blame := []
    filenames := [], pendingChanges := [⟨0, 0, "x"⟩], pendingEditors := [7] }

/-- A minimal one-entry stream. -/
def cxStreamC2 : List String := ["aaa1111 1 1 1", "filename foo.txt"]

/-- The VS Code document of the one-line file `"hello\n"`: its trailing
newline makes the editor show a final empty line, so `lineCount = 2`. -/
def cxDoc : List String := ["hello", ""]

/-- The blame stream git emits for that file: one entry covering line 1. -/
def cxStreamC5 : List String := ["abc1234 1 1 1", "filename hello.txt"]

/-- The parse of that stream over a fresh file. -/
def cxParseC5 : PState :=
  runLines "hello.txt" (initPState (initFile Tracked.unknown none) [])
    cxStreamC5

/-- A commit record whose message is not yet loaded. -/
def cxCommit : Commit :=
  { author := some "A", email := some "a@x", timestamp := some 5
    summary := some "s", message := none }

/-- A session holding one loading file. -/
def cxRepo : Repo :=
  { head := Ref.uncommitted, files := [("a.txt", cxLoadingFile)]
    commits := [] }

/-- A session with no file records. -/
def cxEmptyRepo : Repo :=
  { head := Ref.uncommitted, files := [], commits := [] }

/-- A tracked, done file with one attributed line, as after loading a
one-line newline-terminated document (whose `lineCount` is 2). -/
def cxDoneFile : File :=
  { state := FState.done, tracked := Tracked.yes
    blame := [some (Ref.sha "abc")], filenames := []
    pendingChanges := [], pendingEditors := [] }

/-! ## Lemmas about the line splitter -/

theorem splitChars_ne_nil (sep : Char) (l : List Char) : splitChars sep l ≠ [] := by
  induction l with
  | nil => simp [splitChars]
  | cons c cs ih =>
    simp only [splitChars]
    split
    · simp
    · cases h : splitChars sep cs with
      | nil => exact absurd h ih
      | cons a t => simp [h]

theorem jsLines_ne_nil (s : String) : jsLines s ≠ [] := by
  have := splitChars_ne_nil '\n' s.toList
  simp only [jsLines, jsSplit, ne_eq, List.map_eq_nil_iff]
  exact this

theorem jsLines_length_pos (s : String) : 1 ≤ (jsLines s).length :=
  List.length_pos.mpr (jsLines_ne_nil s)

/-! ## Lemmas about JS array reads and writes -/

theorem jsGet_eq_some_iff {a : List (Option Ref)} {i : Nat} {v : Ref} :
    jsGet a i = some v ↔ a[i]? = some (some v) := by
  unfold jsGet
  rw [List.getD_eq_getElem?_getD]
  cases h : a[i]? with
  | none => simp
  | some o => simp

theorem jsGet_of_length_le {a : List (Option Ref)} {i : Nat}
    (h : a.length ≤ i) : jsGet a i = none := by
  unfold jsGet
  rw [List.getD_eq_getElem?_getD, List.getElem?_eq_none h]
  rfl

theorem jsWrite_length (a : List (Option Ref)) (i : Nat) (v : Ref) :
    (jsWrite a i v).length = max a.length (i + 1) := by
  unfold jsWrite
  split
  · simp only [List.length_set]
    omega
  · simp only [List.length_append, List.length_replicate, List.length_cons,
      List.length_nil]
    omega

theorem jsGet_jsWrite_self (a : List (Option Ref)) (i : Nat) (v : Ref) :
    jsGet (jsWrite a i v) i = some v := by
  rw [jsGet_eq_some_iff]
  unfold jsWrite
  split
  · exact List.getElem?_set_self ‹_›
  · rename_i h
    have hlen : (a ++ List.replicate (i - a.length) none).length = i := by
      simp only [List.length_append, List.length_replicate]
      omega
    rw [List.getElem?_append_right (by omega)]
    rw [hlen, Nat.sub_self]
    rfl

theorem jsGet_jsWrite_ne (a : List (Option Ref)) (i j : Nat) (v : Ref)
    (h : j ≠ i) : jsGet (jsWrite a i v) j = jsGet a j := by
  unfold jsGet jsWrite
  rw [List.getD_eq_getElem?_getD, List.getD_eq_getElem?_getD]
  split
  · rw [List.getElem?_set_ne (Ne.symm h)]
  · rename_i hlen
    have hmid : (a ++ List.replicate (i - a.length) none).length = i := by
      simp only [List.length_append, List.length_replicate]
      omega
    by_cases hj : j < a.length
    · rw [List.getElem?_append_left (by omega)]
      rw [List.getElem?_append_left hj]
    · rw [List.getElem?_eq_none (show a.length ≤ j by omega)]
      by_cases hji : j < i
      · rw [List.getElem?_append_left (by omega)]
        rw [List.getElem?_append_right (by omega)]
        rw [List.getElem?_replicate]
        simp only [if_pos (by omega : j - a.length < i - a.length)]
        rfl
      · rw [List.getElem?_eq_none (by simp only [List.length_append,
          List.length_replicate, List.length_cons, List.length_nil]; omega)]

theorem fillFrom_get_lt (n : Nat) (a : List (Option Ref)) (i : Int) (v : Ref)
    (j : Nat) (h : (j : Int) < i) : jsGet (fillFrom a i n v) j = jsGet a j := by
  induction n generalizing a i with
  | zero => rfl
  | succ n ih =>
    unfold fillFrom
    rw [ih _ _ (by omega)]
    split
    · exact jsGet_jsWrite_ne _ _ _ _ (by omega)
    · rfl

theorem fillFrom_get_ge (n : Nat) (a : List (Option Ref)) (i : Int) (v : Ref)
    (j : Nat) (h : i + n ≤ (j : Int)) :
    jsGet (fillFrom a i n v) j = jsGet a j := by
  induction n generalizing a i with
  | zero => rfl
  | succ n ih =>
    unfold fillFrom
    rw [ih _ _ (by push_cast at h ⊢; omega)]
    split
    · exact jsGet_jsWrite_ne _ _ _ _ (by push_cast at h; omega)
    · rfl

theorem fillFrom_get_in (n : Nat) (a : List (Option Ref)) (i : Int) (v : Ref)
    (j : Nat) (h1 : i ≤ (j : Int)) (h2 : (j : Int) < i + n) :
    jsGet (fillFrom a i n v) j = some v := by
  induction n generalizing a i with
  | zero => omega
  | succ n ih =>
    unfold fillFrom
    by_cases hj : (j : Int) = i
    · have h0 : 0 ≤ i := by omega
      rw [fillFrom_get_lt _ _ _ _ _ (by omega)]
      rw [if_pos h0]
      have : i.toNat = j := by omega
      rw [this]
      exact jsGet_jsWrite_self _ _ _
    · exact ih _ _ (by omega) (by push_cast at h2 ⊢; omega)

theorem fillFrom_length_le (n : Nat) (a : List (Option Ref)) (i : Int)
    (v : Ref) (h0 : 0 ≤ i) (h : i.toNat + n ≤ a.length) :
    (fillFrom a i n v).length = a.length := by
  induction n generalizing a i with
  | zero => rfl
  | succ n ih =>
    unfold fillFrom
    rw [if_pos h0]
    rw [ih _ _ (by omega) (by rw [jsWrite_length]; omega)]
    rw [jsWrite_length]
    omega

theorem fillFrom_length_max (n : Nat) (a : List (Option Ref)) (i : Int)
    (v : Ref) (hn : 1 ≤ n) (h0 : 0 ≤ i) :
    (fillFrom a i n v).length = max a.length (i.toNat + n) := by
  induction n generalizing a i with
  | zero => omega
  | succ n ih =>
    unfold fillFrom
    rw [if_pos h0]
    cases Nat.eq_zero_or_pos n with
    | inl hz =>
      subst hz
      show (jsWrite a i.toNat v).length = _
      rw [jsWrite_length]
    | inr hpos =>
      rw [ih _ _ hpos (by omega), jsWrite_length]
      have : (i + 1).toNat = i.toNat + 1 := by omega
      rw [this]
      omega

/-! ## Lemmas about the map operations -/

theorem mlookup_mset_self {α : Type} (m : List (String × α)) (k : String)
    (v : α) : mlookup (mset m k v) k = some v := by
  simp [mlookup, mset]

theorem mlookup_mset_ne {α : Type} (m : List (String × α)) (k q : String)
    (v : α) (h : k ≠ q) : mlookup (mset m k v) q = mlookup m q := by
  simp [mlookup, mset, h]

/-! ## Lemmas about the two splices of `processChange` -/

theorem jsGet_take_append (b1 rest : List (Option Ref)) (k i : Nat)
    (hik : i < k) (hk : k ≤ b1.length) :
    jsGet (b1.take k ++ rest) i = jsGet b1 i := by
  unfold jsGet
  rw [List.getD_eq_getElem?_getD, List.getD_eq_getElem?_getD]
  rw [List.getElem?_append_left (by simp only [List.length_take]; omega)]
  rw [List.getElem?_take_of_lt hik]

theorem jsGet_ins_left (b1 : List (Option Ref)) (e k : Nat) (v : Ref)
    (i : Nat) (hie : i ≤ e) (hlen : e + 1 ≤ b1.length) :
    jsGet (b1.take (e + 1) ++ List.replicate k (some v) ++ b1.drop (e + 1)) i =
      jsGet b1 i := by
  unfold jsGet
  rw [List.getD_eq_getElem?_getD, List.getD_eq_getElem?_getD]
  rw [List.getElem?_append_left (by
    simp only [List.length_append, List.length_take, List.length_replicate]
    omega)]
  rw [List.getElem?_append_left (by simp only [List.length_take]; omega)]
  rw [List.getElem?_take_of_lt (by omega)]

theorem jsGet_ins_mid (b1 : List (Option Ref)) (e k : Nat) (v : Ref)
    (i : Nat) (h1 : e + 1 ≤ i) (h2 : i - (e + 1) < k) (hlen : e + 1 ≤ b1.length) :
    jsGet (b1.take (e + 1) ++ List.replicate k (some v) ++ b1.drop (e + 1)) i =
      some v := by
  rw [jsGet_eq_some_iff]
  rw [List.getElem?_append_left (by
    simp only [List.length_append, List.length_take, List.length_replicate]
    omega)]
  rw [List.getElem?_append_right (by simp only [List.length_take]; omega)]
  rw [List.getElem?_replicate]
  rw [if_pos (by simp only [List.length_take]; omega)]

/-! ## C1: the incremental patch engine -/

/-- C1 (counterexample): on an empty blame array, the delta replacing lines
`[0, 1]` by one line leaves an array of length 1, but the claimed equation
`length before + net line delta` predicts `-1`: the length clause of the
claim fails when the replaced range extends past the array. -/
theorem C1_counterexample :
    (processChange [] cxChange).length = 1 ∧
    ¬ (((processChange [] cxChange).length : Int) =
        (([] : List (Option Ref)).length : Int) +
          (((jsLines cxChange.text).length : Int) - 1) -
          ((cxChange.endLine : Int) - (cxChange.startLine : Int))) := by
  decide

/-- C1 (amended): for every delta whose replaced range lies within the blame
array (`startLine ≤ endLine < length`): every line index in
`[startLine, min endLine newEndLine]` is set to `Uncommitted` regardless of
its previous value; the array's length afterwards equals its length before
plus the net line delta of the change; and every newly created index (those
in `(endLine, newEndLine]`) holds `Uncommitted`. -/
theorem C1_amended (b : List (Option Ref)) (c : ContentChange)
    (hse : c.startLine ≤ c.endLine) (he : c.endLine < b.length) :
    ((processChange b c).length : Int) =
        (b.length : Int) + (((jsLines c.text).length : Int) - 1) -
          ((c.endLine : Int) - (c.startLine : Int)) ∧
    (∀ i, c.startLine ≤ i →
        i ≤ min c.endLine (c.startLine + (jsLines c.text).length - 1) →
        jsGet (processChange b c) i = some Ref.uncommitted) ∧
    (∀ i, c.endLine < i →
        i ≤ c.startLine + (jsLines c.text).length - 1 →
        jsGet (processChange b c) i = some Ref.uncommitted) := by
  have hL1 : 1 ≤ (jsLines c.text).length := jsLines_length_pos _
  simp only [processChange]
  set s := c.startLine with hs
  set e := c.endLine with hev
  set L := (jsLines c.text).length with hLdef
  set newEnd := s + L - 1 with hNE
  set b1 := fillFrom b (s : Int) (min e newEnd + 1 - s) Ref.uncommitted with hb1
  have hb1len : b1.length = b.length := by
    rw [hb1]
    apply fillFrom_length_le
    · exact Int.natCast_nonneg s
    · rw [Int.toNat_natCast]
      omega
  have hb1in : ∀ i, s ≤ i → i ≤ min e newEnd →
      jsGet b1 i = some Ref.uncommitted := by
    intro i h1 h2
    rw [hb1]
    apply fillFrom_get_in
    · exact_mod_cast h1
    · omega
  rcases Nat.lt_trichotomy newEnd e with hlt | heq | hgt
  · -- net deletion
    rw [if_pos hlt]
    refine ⟨?_, ?_, ?_⟩
    · simp only [List.length_append, List.length_take, List.length_drop,
        hb1len]
      omega
    · intro i h1 h2
      rw [jsGet_take_append _ _ _ _ (by omega) (by omega)]
      exact hb1in i h1 h2
    · intro i h1 h2
      omega
  · -- same line count
    rw [if_neg (by omega), if_neg (by omega)]
    refine ⟨?_, ?_, ?_⟩
    · rw [hb1len]
      omega
    · intro i h1 h2
      exact hb1in i h1 h2
    · intro i h1 h2
      omega
  · -- net insertion
    rw [if_neg (by omega), if_pos hgt]
    refine ⟨?_, ?_, ?_⟩
    · simp only [List.length_append, List.length_take, List.length_replicate,
        List.length_drop, hb1len]
      push_cast
      omega
    · intro i h1 h2
      rw [jsGet_ins_left _ _ _ _ _ (by omega) (by omega)]
      exact hb1in i h1 h2
    · intro i h1 h2
      exact jsGet_ins_mid _ _ _ _ _ (by omega) (by omega) (by omega)

/-- Witness for C1 (amended): replacing line 0 of a two-line array by three
lines gives length 4 and uncommitted entries at indices 0–2. -/
theorem C1_amended_witness :
    ((processChange [some (Ref.sha "a"), some (Ref.sha "b")]
        ⟨0, 0, "x\ny\nz"⟩).length : Int) =
        ((2 : Nat) : Int) +
          (((jsLines "x\ny\nz").length : Int) - 1) - ((0 : Int) - (0 : Int)) ∧
    jsGet (processChange [some (Ref.sha "a"), some (Ref.sha "b")]
        ⟨0, 0, "x\ny\nz"⟩) 2 = some Ref.uncommitted :=
  ⟨(C1_amended [some (Ref.sha "a"), some (Ref.sha "b")] ⟨0, 0, "x\ny\nz"⟩
      (by decide) (by decide)).1,
   (C1_amended [some (Ref.sha "a"), some (Ref.sha "b")] ⟨0, 0, "x\ny\nz"⟩
      (by decide) (by decide)).2.2 2 (by decide) (by decide)⟩

/-! ## C3: the example stream and the header fill -/

/-- C3: the spec's two-entry example stream produces
`blame = [aaa1111, aaa1111, Uncommitted]` and the expected commit record for
`aaa1111` (author Alice, email with angle brackets stripped, timestamp
1000000000, summary "Initial commit"); and in general a header run fills
every index in `[finalLineStart - 1, finalLineStart - 1 + lineCount)` of the
blame array with its ref, overwriting whatever the index previously held. -/
theorem C3_example_and_header_fill :
    exampleParse.file.blame =
      [some (Ref.sha "aaa1111"), some (Ref.sha "aaa1111"),
        some Ref.uncommitted] ∧
    mlookup exampleParse.commits "aaa1111" = some aliceCommit ∧
    (∀ (b : List (Option Ref)) (s n : Nat) (v : Ref) (i : Nat),
      s ≤ i → i < s + n →
      jsGet (fillFrom b ((s : Nat) : Int) n v) i = some v) := by
  refine ⟨by decide, by decide, ?_⟩
  intro b s n v i h1 h2
  apply fillFrom_get_in
  · exact_mod_cast h1
  · omega

/-- Witness for C3's general header-fill clause: a run of 2 starting at index
1 overwrites index 2. -/
theorem C3_witness :
    jsGet (fillFrom [some (Ref.sha "q")] ((1 : Nat) : Int) 2 (Ref.sha "w")) 2 =
      some (Ref.sha "w") :=
  C3_example_and_header_fill.2.2 [some (Ref.sha "q")] 1 2 (Ref.sha "w") 2
    (by decide) (by decide)

/-! ## C4: first-writer-wins for commit records -/

theorem setTrackedYes_blame (f : File) : (setTrackedYes f).blame = f.blame := by
  unfold setTrackedYes
  split <;> rfl

theorem stepHeader_commits (st : PState) (line : String) :
    (stepHeader st line).commits = st.commits := rfl

theorem stepHeader_inv (st : PState) (line : String) :
    PInv (stepHeader st line) := by
  intro _ c hcur
  unfold stepHeader at hcur ⊢
  dsimp only at hcur ⊢
  refine ⟨(jsSplit ' ' line).getD 0 "", rfl, ?_⟩
  by_cases hk : mlookup st.commits ((jsSplit ' ' line).getD 0 "") = none
  · exact hk
  · rw [if_neg (fun hc => hk hc.2)] at hcur
    exact absurd hcur (by simp)

theorem stepTagInsert_of_ne (st : PState) (tag : String)
    (h : tag ≠ "filename") : stepTagInsert st tag = st := by
  unfold stepTagInsert
  rw [if_neg h]

theorem stepTagSwitch_commits (relPath : String) (st : PState)
    (tag content : String) :
    (stepTagSwitch relPath st tag content).commits = st.commits := by
  unfold stepTagSwitch
  cases st.cur with
  | none => rfl
  | some c =>
    dsimp only
    repeat' split
    all_goals rfl

theorem stepTagSwitch_sha (relPath : String) (st : PState)
    (tag content : String) :
    (stepTagSwitch relPath st tag content).sha = st.sha := by
  unfold stepTagSwitch
  cases st.cur with
  | none => rfl
  | some c =>
    dsimp only
    repeat' split
    all_goals rfl

theorem stepTagSwitch_expectSha (relPath : String) (st : PState)
    (tag content : String) :
    (stepTagSwitch relPath st tag content).expectSha = st.expectSha := by
  unfold stepTagSwitch
  cases st.cur with
  | none => rfl
  | some c =>
    dsimp only
    repeat' split
    all_goals rfl

theorem stepTagSwitch_of_cur_none (relPath : String) (st : PState)
    (tag content : String) (h : st.cur = none) :
    stepTagSwitch relPath st tag content = st := by
  unfold stepTagSwitch
  rw [h]

theorem stepTag_eq (relPath : String) (st : PState) (line : String) :
    stepTag relPath st line =
      stepTagSwitch relPath (stepTagInsert st (splitTag line).1)
        (splitTag line).1 (splitTag line).2 := rfl

theorem stepTag_preserves_lookup (relPath : String) (st : PState)
    (line : String) (s : String) (c : Commit) (hexp : st.expectSha = false)
    (hInv : PInv st) (h : mlookup st.commits s = some c) :
    mlookup (stepTag relPath st line).commits s = some c := by
  rw [stepTag_eq, stepTagSwitch_commits]
  by_cases hf : (splitTag line).1 = "filename"
  · unfold stepTagInsert
    rw [if_pos hf]
    dsimp only
    cases hsha : st.sha with
    | none => cases st.cur <;> simpa using h
    | some s0 =>
      cases hcur : st.cur with
      | none => simpa using h
      | some c0 =>
        obtain ⟨s1, hs1, hnone⟩ := hInv hexp c0 hcur
        rw [hsha] at hs1
        obtain rfl : s0 = s1 := by injection hs1
        have hne : s0 ≠ s := by
          intro hEq
          rw [hEq] at hnone
          rw [hnone] at h
          exact absurd h (by simp)
        rw [mlookup_mset_ne _ _ _ _ hne]
        exact h
  · rw [stepTagInsert_of_ne _ _ hf]
    exact h

theorem stepTag_inv (relPath : String) (st : PState) (line : String)
    (hInv : PInv st) :
    PInv (stepTag relPath st line) := by
  rw [stepTag_eq]
  intro hexp' c' hcur'
  rw [stepTagSwitch_expectSha] at hexp'
  by_cases hf : (splitTag line).1 = "filename"
  · exfalso
    unfold stepTagInsert at hexp'
    rw [if_pos hf] at hexp'
    simp at hexp'
  · rw [stepTagInsert_of_ne _ _ hf] at hexp' hcur' ⊢
    rw [stepTagSwitch_commits, stepTagSwitch_sha]
    cases hcur : st.cur with
    | none =>
      rw [stepTagSwitch_of_cur_none _ _ _ _ hcur] at hcur'
      rw [hcur] at hcur'
      exact absurd hcur' (by simp)
    | some c0 => exact hInv hexp' c0 hcur

theorem stepLine_preserves_lookup (relPath : String) (st : PState)
    (line : String) (s : String) (c : Commit) (hInv : PInv st)
    (h : mlookup st.commits s = some c) :
    mlookup (stepLine relPath st line).commits s = some c := by
  unfold stepLine
  split
  · exact h
  · split
    · rw [stepHeader_commits]
      exact h
    · rename_i _ hexp
      exact stepTag_preserves_lookup relPath st line s c
        (by revert hexp; cases st.expectSha <;> simp) hInv h

theorem stepLine_inv (relPath : String) (st : PState) (line : String)
    (hInv : PInv st) : PInv (stepLine relPath st line) := by
  unfold stepLine
  split
  · exact hInv
  · split
    · exact stepHeader_inv st line
    · exact stepTag_inv relPath st line hInv

theorem runLines_preserves (relPath : String) (lines : List String) :
    ∀ (st : PState) (s : String) (c : Commit), PInv st →
      mlookup st.commits s = some c →
      PInv (runLines relPath st lines) ∧
        mlookup (runLines relPath st lines).commits s = some c := by
  induction lines with
  | nil => exact fun st s c h1 h2 => ⟨h1, h2⟩
  | cons l ls ih =>
    intro st s c h1 h2
    exact ih (stepLine relPath st l) s c (stepLine_inv relPath st l h1)
      (stepLine_preserves_lookup relPath st l s c h1 h2)

/-- C4: commit records are written once. Once the commit store maps a
revision id to a record (the parser checks the store and starts a record
only for unseen ids, inserting it at the entry's terminator), any further
parsed lines — in particular later entries for the same revision id, whose
tag lines are consumed with no record in progress — leave that mapping
exactly as it was; a header for an already-known revision id starts no
record, yet fills the blame array exactly as it would over any other commit
store. -/
theorem C4_first_writer_wins :
    (∀ (relPath : String) (st : PState) (s : String) (c : Commit)
        (lines : List String),
      PInv st → mlookup st.commits s = some c →
      mlookup (runLines relPath st lines).commits s = some c) ∧
    (∀ (f : File) (m : List (String × Commit)), PInv (initPState f m)) ∧
    (∀ (relPath : String) (st : PState) (line : String)
        (m2 : List (String × Commit)),
      st.aborted = false → st.expectSha = true →
      mlookup st.commits ((jsSplit ' ' line).getD 0 "") ≠ none →
      (stepLine relPath st line).cur = none ∧
      (stepLine relPath st line).file.blame =
        (stepLine relPath { st with commits := m2 } line).file.blame) := by
  refine ⟨?_, ?_, ?_⟩
  · intro relPath st s c lines hInv h
    exact (runLines_preserves relPath lines st s c hInv h).2
  · intro f m hexp c hcur
    exact absurd hexp (by simp [initPState])
  · intro relPath st line m2 hab hexp hknown
    have hstep1 : stepLine relPath st line = stepHeader st line := by
      unfold stepLine
      rw [if_neg (by simp [hab]), if_pos hexp]
    have hstep2 : stepLine relPath { st with commits := m2 } line =
        stepHeader { st with commits := m2 } line := by
      unfold stepLine
      rw [if_neg (by simp [hab]),
        if_pos (show ({ st with commits := m2 } : PState).expectSha = true from hexp)]
    rw [hstep1, hstep2]
    constructor
    · unfold stepHeader
      dsimp only
      rw [if_neg (fun hcond => hknown hcond.2)]
    · unfold stepHeader
      dsimp only

/-- Witness for C4: parsing a second entry for `aaa1111` with different tag
values over a store that already maps it to Alice's record leaves the
record unchanged. -/
theorem C4_witness :
    mlookup (runLines "foo.txt"
        (initPState (initFile Tracked.unknown none) seededStore)
        cxStreamC4).commits "aaa1111" = some aliceCommit :=
  C4_first_writer_wins.1 "foo.txt"
    (initPState (initFile Tracked.unknown none) seededStore) "aaa1111"
    aliceCommit cxStreamC4
    (C4_first_writer_wins.2.1 (initFile Tracked.unknown none) seededStore)
    (by decide)

/-! ## C2: queueing and replay of deltas that arrive during loading -/

/-- C2 (counterexample): in the completion trace of a successful load with
one queued delta and one queued observer, the `setStateDone` event (index 2,
after the two parsed lines) comes strictly *before* the replay of the queued
delta (index 3): the source sets `file.state = "done"` on line 1188 and only
then replays the queue on line 1189, so the replay is not strictly before
the state is marked done as claimed. -/
theorem C2_counterexample :
    (loadTrace cxStreamC2 cxLoadingFile 0)[3]? =
        some (Event.applyChange ⟨0, 0, "x"⟩) ∧
    (loadTrace cxStreamC2 cxLoadingFile 0)[2]? = some Event.setStateDone ∧
    ¬ (3 : Nat) < 2 := by
  decide

theorem loadTrace_setDone (lines : List String) (f : File) (code : Int) :
    (loadTrace lines f code)[lines.length]? = some Event.setStateDone := by
  unfold loadTrace finishTrace
  rw [List.getElem?_append_right (by simp)]
  simp

theorem loadTrace_replay (lines : List String) (f : File) (k : Nat)
    (c : ContentChange) :
    f.pendingChanges[k]? = some c ↔
      (loadTrace lines f 0)[lines.length + 1 + k]? =
        some (Event.applyChange c) := by
  unfold loadTrace finishTrace
  rw [if_pos rfl]
  rw [List.getElem?_append_right (by simp; omega)]
  have hA : ((List.range lines.length).map Event.parseLine).length =
      lines.length := by simp
  rw [hA]
  have hidx : lines.length + 1 + k - lines.length = 1 + k := by omega
  rw [hidx]
  by_cases hk : k < f.pendingChanges.length
  · rw [List.getElem?_append_left (by simp; omega)]
    rw [List.getElem?_append_right (by simp)]
    have h1 : 1 + k - ([Event.setStateDone] : List Event).length = k := by
      simp
    rw [h1, List.getElem?_map]
    cases h : f.pendingChanges[k]? <;> simp [h]
  · rw [List.getElem?_append_right (by simp; omega)]
    rw [List.getElem?_eq_none (show f.pendingChanges.length ≤ k by omega)]
    rw [List.getElem?_map]
    cases hE : f.pendingEditors[1 + k -
        ([Event.setStateDone] ++ f.pendingChanges.map Event.applyChange
          : List Event).length]? <;>
      simp [hE]

theorem loadTrace_notify_late (lines : List String) (f : File) (j : Nat)
    (e : Nat)
    (h : (loadTrace lines f 0)[j]? = some (Event.notifyEditor e)) :
    lines.length + 1 + f.pendingChanges.length ≤ j := by
  by_contra hlt
  push_neg at hlt
  unfold loadTrace finishTrace at h
  rw [if_pos rfl] at h
  by_cases hj : j < lines.length
  · rw [List.getElem?_append_left (by simp; omega)] at h
    rw [List.getElem?_map, List.getElem?_range hj] at h
    simp at h
  · rw [List.getElem?_append_right (by simp; omega)] at h
    have hA : ((List.range lines.length).map Event.parseLine).length =
        lines.length := by simp
    rw [hA] at h
    rw [List.getElem?_append_left (by simp; omega)] at h
    rcases Nat.eq_zero_or_pos (j - lines.length) with hz | hpos
    · rw [hz] at h
      simp at h
    · rw [List.getElem?_append_right (by simp; omega)] at h
      rw [List.getElem?_map] at h
      cases hP : f.pendingChanges[j - lines.length -
          ([Event.setStateDone] : List Event).length]? <;>
        rw [hP] at h <;> simp at h

/-- C2 (amended): deltas arriving while a file is loading (and not marked
untracked, whose deltas the handler drops) are appended to the pending
queue and not applied to the blame array; at load completion the queued
deltas are replayed in their original arrival order, strictly after every
parsed stream line and strictly before any queued observer is notified —
but immediately *after* the state is marked done (line 1188 precedes line
1189), not before; no suspension separates the two, and the resulting blame
array is the original-order fold of the queue over the parsed array. -/
theorem C2_amended :
    (∀ (f : File) (changes : List ContentChange), f.tracked ≠ Tracked.no →
      f.state = FState.loading →
      onDidChangeTextDocument f changes =
        { f with pendingChanges := f.pendingChanges ++ changes }) ∧
    (∀ (lines : List String) (f : File) (code : Int),
      (loadTrace lines f code)[lines.length]? = some Event.setStateDone) ∧
    (∀ (lines : List String) (f : File) (k : Nat) (c : ContentChange),
      f.pendingChanges[k]? = some c ↔
        (loadTrace lines f 0)[lines.length + 1 + k]? =
          some (Event.applyChange c)) ∧
    (∀ (lines : List String) (f : File) (j : Nat) (e : Nat),
      (loadTrace lines f 0)[j]? = some (Event.notifyEditor e) →
      lines.length + 1 + f.pendingChanges.length ≤ j) ∧
    (∀ f : File, (finishFile f 0).state = FState.done ∧
      (finishFile f 0).blame =
        f.pendingChanges.foldl processChange f.blame ∧
      (finishFile f 0).pendingChanges = []) := by
  refine ⟨?_, loadTrace_setDone, loadTrace_replay, loadTrace_notify_late, ?_⟩
  · intro f changes htr hst
    unfold onDidChangeTextDocument
    rw [if_neg htr, hst]
  · intro f
    refine ⟨rfl, rfl, rfl⟩

/-- Witness for C2 (amended): a delta reported while `cxLoadingFile` is
loading is queued behind the existing one and the blame array is untouched. -/
theorem C2_amended_witness :
    onDidChangeTextDocument cxLoadingFile [⟨1, 1, "y"⟩] =
      { cxLoadingFile with
          pendingChanges := cxLoadingFile.pendingChanges ++ [⟨1, 1, "y"⟩] } :=
  C2_amended.1 cxLoadingFile [⟨1, 1, "y"⟩] (by decide) (by decide)

/-! ## C5: blame length versus the document's line count -/

/-- C5 (counterexample): for the one-line newline-terminated file
`"hello\n"`, whose VS Code document `cxDoc` shows two lines, git emits the
one-entry stream `cxStreamC5` covering line 1 only, so the done file's blame
array has length 1 while the document's line count is 2: the claimed
invariant `blame.length = lineCount` fails for every newline-terminated
file (the code's own final-line special case in `getCommitTemp`
acknowledges the missing trailing entry). -/
theorem C5_counterexample :
    (finishFile cxParseC5.file 0).state = FState.done ∧
    (finishFile cxParseC5.file 0).blame.length = gitAttributedLines cxDoc ∧
    gitAttributedLines cxDoc = 1 ∧
    vsDocLineCount cxDoc = 2 ∧
    (finishFile cxParseC5.file 0).blame.length ≠ vsDocLineCount cxDoc := by
  decide

/-- C5 (amended): once a load completes, the blame array's length equals the
number of lines git attributed: a header of `n ≥ 1` lines starting at
0-based index `s` extends the array to `max length (s + n)`, so a stream
covering exactly lines `1..K` of the file yields length `K`
(`gitAttributedLines`); that number equals the document's line count exactly
when the document does not end with a trailing empty line, and is
`lineCount - 1` for newline-terminated files. -/
theorem C5_amended :
    (∀ doc : List String, vsDocLineCount doc =
      gitAttributedLines doc + (if doc.getLast? = some "" then 1 else 0)) ∧
    (∀ (b : List (Option Ref)) (s n : Nat) (v : Ref), 1 ≤ n →
      (fillFrom b ((s : Nat) : Int) n v).length = max b.length (s + n)) ∧
    (finishFile cxParseC5.file 0).blame.length = gitAttributedLines cxDoc := by
  refine ⟨?_, ?_, by decide⟩
  · intro doc
    unfold vsDocLineCount gitAttributedLines
    by_cases h : doc.getLast? = some ""
    · rw [if_pos h, if_pos h]
      have hne : doc ≠ [] := by
        intro hnil
        rw [hnil] at h
        simp at h
      have h1 : 1 ≤ doc.length := List.length_pos.mpr hne
      omega
    · rw [if_neg h, if_neg h]
      omega
  · intro b s n v hn
    rw [fillFrom_length_max n b _ v hn (Int.natCast_nonneg s)]
    rw [Int.toNat_natCast]

/-- Witness for C5 (amended): one fresh header of one line starting at index
2 extends an empty array to length 3. -/
theorem C5_amended_witness :
    (fillFrom ([] : List (Option Ref)) ((2 : Nat) : Int) 1
        Ref.uncommitted).length =
      max ([] : List (Option Ref)).length (2 + 1) :=
  C5_amended.2.1 [] 2 1 Ref.uncommitted (by decide)

/-! ## C6: at most one blame subprocess in flight per file -/

theorem notify_mem_finishTrace (f : File) (e : Nat) (code : Int)
    (h : e ∈ f.pendingEditors) :
    Event.notifyEditor e ∈ finishTrace f code := by
  unfold finishTrace
  exact List.mem_append_right _ (List.mem_map_of_mem _ h)

/-- C6: a load request for a file whose state is `loading` — forced or not —
returns the existing record and spawns nothing (the session is unchanged);
an observer requesting a loading file is queued, and the completion trace of
the in-flight load notifies every queued observer, in particular such a
requester. -/
theorem C6_single_flight :
    (∀ (repo : Repo) (path : String) (ed : Option Nat) (force isDirty : Bool)
        (f : File),
      mlookup repo.files path = some f → f.state = FState.loading →
      loadFile repo path ed force isDirty = ⟨repo, f, false⟩) ∧
    (∀ (f : File) (e : Nat) (code : Int), f.state = FState.loading →
      Event.notifyEditor e ∈ finishTrace (queuePendingEditor f e) code) ∧
    (∀ (f : File) (e : Nat) (code : Int), e ∈ f.pendingEditors →
      Event.notifyEditor e ∈ finishTrace f code) := by
  refine ⟨?_, ?_, notify_mem_finishTrace⟩
  · intro repo path ed force isDirty f hlook hst
    unfold loadFile
    rw [hlook]
    dsimp only
    rw [if_pos (Or.inr hst)]
  · intro f e code hst
    apply notify_mem_finishTrace
    unfold queuePendingEditor
    rw [if_pos hst]
    unfold addEditor
    split
    · assumption
    · simp

/-- Witness for C6: a forced reload of the loading file of `cxRepo` changes
nothing and spawns nothing, and the queued requester 3 is notified. -/
theorem C6_witness :
    loadFile cxRepo "a.txt" (some 3) true false =
      ⟨cxRepo, cxLoadingFile, false⟩ ∧
    Event.notifyEditor 3 ∈
      finishTrace (queuePendingEditor cxLoadingFile 3) 0 :=
  ⟨C6_single_flight.1 cxRepo "a.txt" (some 3) true false cxLoadingFile
      (by decide) (by decide),
   C6_single_flight.2.1 cxLoadingFile 3 0 (by decide)⟩

/-! ## C7: head-change invalidation -/

/-- C7: when the observed head differs from the cached one, the session's
file map is cleared down to a single fresh record for the focused file, the
head is updated, the commit store is untouched, and — for a clean document —
the focused file is immediately reloading with a blame subprocess spawned. -/
theorem C7_head_change (repo : Repo) (actualHead : Ref) (path : String)
    (ed : Option Nat) (isDirty : Bool) (h : repo.head ≠ actualHead) :
    (checkHead repo actualHead path ed isDirty).1.commits = repo.commits ∧
    (checkHead repo actualHead path ed isDirty).1.head = actualHead ∧
    (∃ f : File,
      (checkHead repo actualHead path ed isDirty).1.files = [(path, f)] ∧
      (isDirty = false →
        f.state = FState.loading ∧
        (checkHead repo actualHead path ed isDirty).2 = true)) := by
  unfold checkHead
  rw [if_neg h]
  dsimp only
  unfold loadFile
  have hnone : mlookup
      ({ repo with head := actualHead, files := [] } : Repo).files path =
        none := rfl
  rw [hnone]
  dsimp only
  unfold loadFileFresh
  dsimp only
  refine ⟨rfl, rfl, _, rfl, ?_⟩
  intro hd
  subst hd
  exact ⟨rfl, rfl⟩

/-- Witness for C7: `cxRepo` (head `uncommitted`) observing head `h2`
preserves its commit store and adopts the new head. -/
theorem C7_witness :
    (checkHead cxRepo (Ref.sha "h2") "a.txt" none false).1.commits =
      cxRepo.commits ∧
    (checkHead cxRepo (Ref.sha "h2") "a.txt" none false).1.head =
      Ref.sha "h2" :=
  ⟨(C7_head_change cxRepo (Ref.sha "h2") "a.txt" none false (by decide)).1,
   (C7_head_change cxRepo (Ref.sha "h2") "a.txt" none false (by decide)).2.1⟩

/-! ## C8: exit code 128 with no header lines -/

/-- C8: a fresh load whose subprocess emits no lines and exits with 128
leaves the file done, untracked, with an empty blame array; reading any
line's attribution then yields the untracked state — never loading or
failed. -/
theorem C8_untracked (repo : Repo) (path relPath : String) (ed : Option Nat)
    (hnone : mlookup repo.files path = none) :
    finishFile (runLines relPath
        (initPState (loadFile repo path ed false false).file
          (loadFile repo path ed false false).repo.commits) []).file 128 =
      { state := FState.done, tracked := Tracked.no, blame := []
        filenames := [], pendingChanges := [], pendingEditors := [] } ∧
    (∀ (docLC : Nat) (commits : List (String × Commit)) (line : Nat),
      getCommitTemp docLC commits
        (finishFile (runLines relPath
          (initPState (loadFile repo path ed false false).file
            (loadFile repo path ed false false).repo.commits) []).file 128)
        line = CommitTemp.untracked) := by
  have hfile : (loadFile repo path ed false false).file =
      initFile Tracked.unknown ed := by
    unfold loadFile
    rw [hnone]
    rfl
  have hdone : finishFile (runLines relPath
      (initPState (loadFile repo path ed false false).file
        (loadFile repo path ed false false).repo.commits) []).file 128 =
      { state := FState.done, tracked := Tracked.no, blame := []
        filenames := [], pendingChanges := [], pendingEditors := [] } := by
    rw [hfile]
    rfl
  refine ⟨hdone, ?_⟩
  intro docLC commits line
  rw [hdone]
  unfold getCommitTemp
  rw [if_pos (by decide)]

/-- Witness for C8: the scenario over the empty session. -/
theorem C8_witness :
    finishFile (runLines "b.txt"
        (initPState (loadFile cxEmptyRepo "b.txt" none false false).file
          (loadFile cxEmptyRepo "b.txt" none false false).repo.commits)
        []).file 128 =
      { state := FState.done, tracked := Tracked.no, blame := []
        filenames := [], pendingChanges := [], pendingEditors := [] } :=
  (C8_untracked cxEmptyRepo "b.txt" "b.txt" none (by decide)).1

/-! ## C9: lazy commit-message fetching -/

/-- C9 (counterexample): two display requests for `cxCommit` (whose message
is not yet loaded), the second arriving before the first fetch resolves,
spawn two `git show` subprocesses, not at most one: only the resolved
message is memoized (`commit.message` is assigned when the fetch resolves),
the pending operation itself is not. -/
theorem C9_counterexample :
    (runMsg cxCommit [MsgEvent.request, MsgEvent.request]).2 = 2 ∧
    ¬ (runMsg cxCommit [MsgEvent.request, MsgEvent.request]).2 ≤ 1 := by
  decide

theorem msg_foldl_shift (evs : List MsgEvent) :
    ∀ (c : Commit) (n : Nat),
      evs.foldl msgStep (c, n) = ((runMsg c evs).1, n + (runMsg c evs).2) := by
  induction evs with
  | nil =>
    intro c n
    simp [runMsg]
  | cons e evs ih =>
    intro c n
    have hfold : ∀ p : Commit × Nat,
        (e :: evs).foldl msgStep p = evs.foldl msgStep (msgStep p e) :=
      fun p => rfl
    rw [hfold, show runMsg c (e :: evs) = evs.foldl msgStep (msgStep (c, 0) e)
      from rfl]
    cases e with
    | request =>
      by_cases h : c.message = none
      · rw [show msgStep (c, n) MsgEvent.request = (c, n + 1) by
          simp [msgStep, h]]
        rw [show msgStep (c, 0) MsgEvent.request = (c, 1) by
          simp [msgStep, h]]
        rw [ih c (n + 1), ih c 1]
        exact Prod.ext rfl (by omega)
      · rw [show msgStep (c, n) MsgEvent.request = (c, n) by
          simp [msgStep, h]]
        rw [show msgStep (c, 0) MsgEvent.request = (c, 0) by
          simp [msgStep, h]]
        rw [ih c n, ih c 0]
        exact Prod.ext rfl (by omega)
    | resolve raw =>
      rw [show msgStep (c, n) (MsgEvent.resolve raw) =
          ({ c with message := some raw }, n) from rfl]
      rw [show msgStep (c, 0) (MsgEvent.resolve raw) =
          ({ c with message := some raw }, 0) from rfl]
      rw [ih _ n, ih _ 0]
      exact Prod.ext rfl (by omega)

theorem runMsg_spawns_zero_of_loaded (c : Commit) (evs : List MsgEvent)
    (m : String) (h : c.message = some m) : (runMsg c evs).2 = 0 := by
  induction evs generalizing c m with
  | nil => rfl
  | cons e evs ih =>
    cases e with
    | request =>
      have : runMsg c (MsgEvent.request :: evs) = runMsg c evs := by
        unfold runMsg
        show List.foldl msgStep (msgStep (c, 0) MsgEvent.request) evs = _
        rw [show msgStep (c, 0) MsgEvent.request = (c, 0) by simp [msgStep, h]]
      rw [this]
      exact ih c m h
    | resolve raw =>
      have : runMsg c (MsgEvent.resolve raw :: evs) =
          runMsg { c with message := some raw } evs := rfl
      rw [this]
      exact ih _ raw rfl

/-- C9 (amended): the resolved message is memoized — once `commit.message`
is set (and a resolution sets it), no later display request spawns a fetch
for that revision; but the pending fetch is not shared: each request that
arrives while the message is still unloaded spawns its own subprocess. -/
theorem C9_amended :
    (∀ (c : Commit) (evs : List MsgEvent) (m : String),
      c.message = some m → (runMsg c evs).2 = 0) ∧
    (∀ (c : Commit) (raw : String) (evs : List MsgEvent),
      (runMsg c (MsgEvent.resolve raw :: evs)).2 = 0) ∧
    (∀ (c : Commit) (evs : List MsgEvent), c.message = none →
      (runMsg c (MsgEvent.request :: evs)).2 = 1 + (runMsg c evs).2) := by
  refine ⟨runMsg_spawns_zero_of_loaded, ?_, ?_⟩
  · intro c raw evs
    have : runMsg c (MsgEvent.resolve raw :: evs) =
        runMsg { c with message := some raw } evs := rfl
    rw [this]
    exact runMsg_spawns_zero_of_loaded _ evs raw rfl
  · intro c evs h
    have : runMsg c (MsgEvent.request :: evs) =
        evs.foldl msgStep (c, 1) := by
      unfold runMsg
      show List.foldl msgStep (msgStep (c, 0) MsgEvent.request) evs = _
      rw [show msgStep (c, 0) MsgEvent.request = (c, 1) by simp [msgStep, h]]
    rw [this, msg_foldl_shift]

/-- Witness for C9 (amended): once `cxCommit`'s message is loaded, two
further requests spawn nothing. -/
theorem C9_amended_witness :
    (runMsg { cxCommit with message := some "m" }
        [MsgEvent.request, MsgEvent.request]).2 = 0 :=
  C9_amended.1 { cxCommit with message := some "m" }
    [MsgEvent.request, MsgEvent.request] "m" rfl

/-! ## C10: undefined blame entries and the document's final line -/

theorem getCommitTemp_none (docLC : Nat) (commits : List (String × Commit))
    (f : File) (line : Nat) (htr : f.tracked = Tracked.yes)
    (hst : f.state ≠ FState.dirty) (hget : jsGet f.blame line = none) :
    getCommitTemp docLC commits f line =
      if line = docLC - 1 then CommitTemp.uncommitted
      else CommitTemp.loading := by
  unfold getCommitTemp
  rw [if_neg (by simp [htr]), if_neg hst, hget]

/-- C10: for a tracked, non-dirty file, a line whose blame entry is still
`undefined` reads as loading, except the document's final line, which reads
as uncommitted; in particular the trailing line of a newline-terminated
document — whose blame array stops one short of the line count — is never
reported as loading or failed. -/
theorem C10_last_line :
    (∀ (docLC : Nat) (commits : List (String × Commit)) (f : File)
        (line : Nat),
      f.tracked = Tracked.yes → f.state ≠ FState.dirty →
      jsGet f.blame line = none →
      getCommitTemp docLC commits f line =
        if line = docLC - 1 then CommitTemp.uncommitted
        else CommitTemp.loading) ∧
    (∀ (docLC : Nat) (commits : List (String × Commit)) (f : File),
      f.tracked = Tracked.yes → f.state ≠ FState.dirty →
      f.blame.length + 1 = docLC →
      getCommitTemp docLC commits f (docLC - 1) = CommitTemp.uncommitted) := by
  refine ⟨getCommitTemp_none, ?_⟩
  intro docLC commits f htr hst hlen
  rw [getCommitTemp_none docLC commits f (docLC - 1) htr hst
    (jsGet_of_length_le (by omega))]
  rw [if_pos rfl]

/-- Witness for C10: on `cxDoneFile` (one attributed line) with a two-line
document, line 1 (the trailing line) reads uncommitted while with a
three-line document line 1 would read loading. -/
theorem C10_witness :
    getCommitTemp 2 [] cxDoneFile 1 = CommitTemp.uncommitted ∧
    getCommitTemp 3 [] cxDoneFile 1 = CommitTemp.loading :=
  ⟨C10_last_line.2 2 [] cxDoneFile (by decide) (by decide) (by decide),
   by
    have h := C10_last_line.1 3 [] cxDoneFile 1 (by decide) (by decide)
      (by decide)
    simpa using h⟩

end GitLineBlame
